import Mathlib

/-!
Verification of the document-conversion service (Express + LibreOffice) of
this repository.  The definitions below are a shallow embedding of the
service source (the `converter-service` server file): pure helpers
(`buildFilterArg`, `guessMimeType`, the sheet-name de-duplication loop, the
asset-inlining pass, the in-memory result cache `remember`) are translated
directly; the stateful HTTP handlers are embedded as functions from an
explicit request plus an *effect oracle* (the outcome of each filesystem /
subprocess step, which in the source is an awaited promise that either
resolves or throws) to a response, a trace of attempted side effects, and
the updated cache.  JavaScript `Map` objects are embedded as association
lists in insertion order, mirroring `Map` iteration semantics; JS string
operations are embedded on Lean `String`.
-/

namespace Conv

/-- Raw file bytes (`Buffer` in the source). -/
abbrev Buffer := List Nat

/-! ## Decimal rendering of numbers (JS template `${n}` on a non-negative integer) -/

/-- Little-endian base-10 digits of `n`, driven by explicit fuel so the
definition is structural (the fuel `n` itself is always sufficient). -/
def natDigitsAux : Nat → Nat → List Nat
  | 0, _ => []
  | fuel + 1, n => if n = 0 then [] else (n % 10) :: natDigitsAux fuel (n / 10)

/-- The decimal digit characters used by JS number-to-string conversion. -/
def digitChr (d : Nat) : Char :=
  match d with
  | 0 => '0' | 1 => '1' | 2 => '2' | 3 => '3' | 4 => '4'
  | 5 => '5' | 6 => '6' | 7 => '7' | 8 => '8' | 9 => '9'
  | _ => '*'

/-- Embedding of JS `${n}` for a non-negative integer `n`. -/
def natToString (n : Nat) : String :=
  if n = 0 then "0" else String.mk (((natDigitsAux n n).reverse).map digitChr)

/-- Embedding of JS `${i}` for an integer (used for number-valued filter data). -/
def intToString (i : Int) : String :=
  if i < 0 then "-" ++ natToString i.natAbs else natToString i.natAbs

/-! ## Kernel-computable embeddings of the JS string methods used

The Lean core `String` methods are implemented for run-time efficiency and
do not reduce inside the kernel, so the JS string methods consulted by the
service are embedded directly over the character lists. -/

/-- `s.toLowerCase()` (ASCII case mapping, the only case relevant here). -/
def strLower (s : String) : String := String.mk (s.data.map Char.toLower)

/-- `s.startsWith(p)`. -/
def strStartsWith (s p : String) : Bool := p.data.isPrefixOf s.data

/-- `Array.prototype.join(sep)` / `String.intercalate`. -/
def strIntercalate (sep : String) : List String → String
  | [] => ""
  | [x] => x
  | x :: y :: rest => x ++ sep ++ strIntercalate sep (y :: rest)

/-- Split a character list at a separator character. -/
def splitChar (c : Char) : List Char → List (List Char)
  | [] => [[]]
  | a :: rest =>
    if a = c then [] :: splitChar c rest
    else
      match splitChar c rest with
      | [] => [[a]]
      | g :: gs => (a :: g) :: gs

/-- `s.trim()`. -/
def strTrim (s : String) : String :=
  String.mk
    (((s.data.dropWhile Char.isWhitespace).reverse.dropWhile
        Char.isWhitespace).reverse)

/-- Literal global replacement (the `new RegExp(escapedSrc, 'g')` replace):
left-to-right, non-overlapping.  Fuel-driven; the initial character count
always suffices for a non-empty pattern. -/
def replaceAux (pat repl : List Char) : Nat → List Char → List Char
  | 0, cs => cs
  | _ + 1, [] => []
  | fuel + 1, c :: rest =>
    if pat.isPrefixOf (c :: rest) then
      repl ++ replaceAux pat repl fuel ((c :: rest).drop pat.length)
    else c :: replaceAux pat repl fuel rest

def strReplace (s pat repl : String) : String :=
  String.mk (replaceAux pat.data repl.data s.data.length s.data)

/-! ## The result cache (`conversionCache` / `remember`)

A JS `Map<string, CacheEntry>` is an insertion-ordered association list:
`get`/`set`/`delete` act on the unique entry with the given key, `set` of an
existing key updates in place (keeping its position), `set` of a new key
appends at the end, and iteration (`entries()`) runs in insertion order. -/

structure CacheEntry where
  buffer : Buffer
  createdAt : Nat
  deriving DecidableEq, Repr

abbrev Cache := List (String × CacheEntry)

/-- `conversionCache.get(k)`. -/
def cacheGet : Cache → String → Option CacheEntry
  | [], _ => none
  | p :: rest, k => if p.1 = k then some p.2 else cacheGet rest k

/-- `conversionCache.set(k, v)` (update in place, else append). -/
def cacheSet : Cache → String → CacheEntry → Cache
  | [], k, v => [(k, v)]
  | p :: rest, k, v => if p.1 = k then (k, v) :: rest else p :: cacheSet rest k v

/-- `conversionCache.delete(k)` (removes the entry with key `k`, if any). -/
def cacheDelete : Cache → String → Cache
  | [], _ => []
  | p :: rest, k => if p.1 = k then rest else p :: cacheDelete rest k

/-- `MAX_CACHE_ITEMS`. -/
def MAX_CACHE_ITEMS : Nat := 20

/-- One step of the eviction scan in `remember`: the accumulator is
`none` while `oldest = +Infinity` and `lruKey = undefined`; since every
`createdAt` (a `Date.now()` value) is finite, the first entry always
replaces the initial accumulator, and afterwards an entry replaces the
accumulator exactly when its `createdAt` is strictly smaller. -/
def oldestStep (acc : Option (String × Nat)) (p : String × CacheEntry) :
    Option (String × Nat) :=
  match acc with
  | none => some (p.1, p.2.createdAt)
  | some (k0, t0) =>
      if p.2.createdAt < t0 then some (p.1, p.2.createdAt) else some (k0, t0)

/-- The `for (const [key, entry] of conversionCache.entries())` scan of
`remember`, yielding the `lruKey` (and its timestamp). -/
def findOldest (c : Cache) : Option (String × Nat) :=
  c.foldl oldestStep none

/-- `remember(hash, buffer)`, with the call-time `Date.now()` passed as
`now`.  Note the eviction guard is the JS truthiness test `if (lruKey)`,
which fails not only when `lruKey` is `undefined` but also when it is the
empty string. -/
def remember (hash : String) (buffer : Buffer) (now : Nat) (c : Cache) : Cache :=
  let c1 :=
    if MAX_CACHE_ITEMS ≤ c.length then
      match findOldest c with
      | some (k, _) => if k = "" then c else cacheDelete c k
      | none => c
    else c
  cacheSet c1 hash ⟨buffer, now⟩

/-- A sequence of `remember` calls: each element is `(hash, buffer, now)`. -/
def applyPuts (ps : List (String × Buffer × Nat)) (c : Cache) : Cache :=
  ps.foldl (fun acc p => remember p.1 p.2.1 p.2.2 acc) c

/-! ### Cache lemmas -/

theorem cacheGet_set_self (c : Cache) (k : String) (v : CacheEntry) :
    cacheGet (cacheSet c k v) k = some v := by
  induction c with
  | nil => simp [cacheSet, cacheGet]
  | cons p rest ih =>
      by_cases h : p.1 = k
      · simp [cacheSet, cacheGet, h]
      · simp [cacheSet, cacheGet, h, ih]

theorem length_cacheSet (c : Cache) (k : String) (v : CacheEntry) :
    (cacheSet c k v).length =
      if (cacheGet c k).isSome then c.length else c.length + 1 := by
  induction c with
  | nil => simp [cacheSet, cacheGet]
  | cons p rest ih =>
      by_cases h : p.1 = k
      · simp [cacheSet, cacheGet, h]
      · simp [cacheSet, cacheGet, h, ih]
        by_cases h2 : (cacheGet rest k).isSome <;> simp [h2]

theorem length_cacheSet_le (c : Cache) (k : String) (v : CacheEntry) :
    (cacheSet c k v).length ≤ c.length + 1 := by
  rw [length_cacheSet]
  by_cases h : (cacheGet c k).isSome <;> simp [h]

theorem length_cacheDelete_of_mem (c : Cache) (k : String)
    (h : (cacheGet c k).isSome) : (cacheDelete c k).length + 1 = c.length := by
  induction c with
  | nil => simp [cacheGet] at h
  | cons p rest ih =>
      by_cases hk : p.1 = k
      · simp [cacheDelete, hk]
      · simp [cacheGet, hk] at h
        simp [cacheDelete, hk, ih h]

theorem cacheGet_delete_ne (c : Cache) (k k' : String) (h : k' ≠ k) :
    cacheGet (cacheDelete c k) k' = cacheGet c k' := by
  have h' : k ≠ k' := fun hh => h hh.symm
  induction c with
  | nil => simp [cacheDelete]
  | cons p rest ih =>
      by_cases hk : p.1 = k
      · simp [cacheDelete, cacheGet, hk, h']
      · by_cases hk' : p.1 = k'
        · simp [cacheDelete, cacheGet, hk, hk', h]
        · simp [cacheDelete, cacheGet, hk, hk', ih]

theorem cacheGet_remember_self (hash : String) (b : Buffer) (now : Nat) (c : Cache) :
    cacheGet (remember hash b now c) hash = some ⟨b, now⟩ := by
  unfold remember
  exact cacheGet_set_self _ _ _

/-- The eviction scan, started from accumulator `some (k0, t0)`, returns the
initial accumulator (with every scanned timestamp `≥ t0`), or else the first
entry of the list attaining a timestamp strictly below `t0` that no later
entry strictly undercuts. -/
theorem foldl_oldestStep_spec (c : Cache) (k0 : String) (t0 : Nat) :
    (c.foldl oldestStep (some (k0, t0)) = some (k0, t0) ∧
      ∀ p ∈ c, t0 ≤ p.2.createdAt) ∨
    (∃ k t pre e post, c.foldl oldestStep (some (k0, t0)) = some (k, t) ∧
      c = pre ++ (k, e) :: post ∧ e.createdAt = t ∧ t < t0 ∧
      (∀ p ∈ pre, t < p.2.createdAt) ∧ (∀ p ∈ post, t ≤ p.2.createdAt)) := by
  induction c generalizing k0 t0 with
  | nil => exact Or.inl ⟨rfl, by simp⟩
  | cons q rest ih =>
      by_cases hlt : q.2.createdAt < t0
      · right
        have step : (q :: rest).foldl oldestStep (some (k0, t0)) =
            rest.foldl oldestStep (some (q.1, q.2.createdAt)) := by
          simp [List.foldl, oldestStep, hlt]
        rcases ih q.1 q.2.createdAt with ⟨heq, hall⟩ | ⟨k, t, pre, e, post, heq, hsplit, het, ht, hpre, hpost⟩
        · refine ⟨q.1, q.2.createdAt, [], q.2, rest, ?_, by simp, rfl, hlt, by simp, hall⟩
          rw [step, heq]
        · refine ⟨k, t, q :: pre, e, post, ?_, by simp [hsplit], het, lt_trans ht hlt, ?_, hpost⟩
          · rw [step, heq]
          · intro p hp
            rcases List.mem_cons.mp hp with h | h
            · subst h; exact ht
            · exact hpre p h
      · have step : (q :: rest).foldl oldestStep (some (k0, t0)) =
            rest.foldl oldestStep (some (k0, t0)) := by
          simp [List.foldl, oldestStep, hlt]
        push_neg at hlt
        rcases ih k0 t0 with ⟨heq, hall⟩ | ⟨k, t, pre, e, post, heq, hsplit, het, ht, hpre, hpost⟩
        · left
          constructor
          · rw [step, heq]
          · intro p hp
            rcases List.mem_cons.mp hp with h | h
            · subst h; exact hlt
            · exact hall p h
        · right
          refine ⟨k, t, q :: pre, e, post, ?_, by simp [hsplit], het, ht, ?_, hpost⟩
          · rw [step, heq]
          · intro p hp
            rcases List.mem_cons.mp hp with h | h
            · subst h; exact lt_of_lt_of_le ht hlt
            · exact hpre p h

/-- `findOldest` on a non-empty cache returns the first entry attaining the
minimal `createdAt` (ties broken by iteration order, i.e. insertion order). -/
theorem findOldest_spec (c : Cache) (hne : c ≠ []) :
    ∃ k t pre e post, findOldest c = some (k, t) ∧
      c = pre ++ (k, e) :: post ∧ e.createdAt = t ∧
      (∀ p ∈ pre, t < p.2.createdAt) ∧ (∀ p ∈ c, t ≤ p.2.createdAt) := by
  match c, hne with
  | q :: rest, _ =>
    have step : findOldest (q :: rest) =
        rest.foldl oldestStep (some (q.1, q.2.createdAt)) := by
      simp [findOldest, List.foldl, oldestStep]
    rcases foldl_oldestStep_spec rest q.1 q.2.createdAt with
      ⟨heq, hall⟩ | ⟨k, t, pre, e, post, heq, hsplit, het, ht, hpre, hpost⟩
    · refine ⟨q.1, q.2.createdAt, [], q.2, rest, ?_, by simp, rfl, by simp, ?_⟩
      · rw [step, heq]
      · intro p hp
        rcases List.mem_cons.mp hp with h | h
        · subst h; exact le_refl _
        · exact hall p h
    · refine ⟨k, t, q :: pre, e, post, ?_, by simp [hsplit], het, ?_, ?_⟩
      · rw [step, heq]
      · intro p hp
        rcases List.mem_cons.mp hp with h | h
        · subst h; exact ht
        · exact hpre p h
      · intro p hp
        rcases List.mem_cons.mp hp with h | h
        · subst h; exact le_of_lt ht
        · rw [hsplit] at h
          rcases List.mem_append.mp h with h | h
          · exact le_of_lt (hpre p h)
          · rcases List.mem_cons.mp h with h | h
            · subst h; simp [het]
            · exact hpost p h

theorem cacheGet_append_mid_isSome (pre post : Cache) (k : String) (e : CacheEntry) :
    (cacheGet (pre ++ (k, e) :: post) k).isSome := by
  induction pre with
  | nil => simp [cacheGet]
  | cons p rest ih =>
      by_cases hp : p.1 = k <;> simp [cacheGet, hp, ih]

/-- Key returned by `findOldest` is present in the cache. -/
theorem findOldest_mem (c : Cache) (k : String) (t : Nat)
    (h : findOldest c = some (k, t)) : (cacheGet c k).isSome := by
  have hne : c ≠ [] := by
    intro hc; subst hc; simp [findOldest, List.foldl] at h
  rcases findOldest_spec c hne with ⟨k', t', pre, e, post, heq, hsplit, _, _, _⟩
  rw [heq] at h
  injection h with h2
  cases h2
  rw [hsplit]
  exact cacheGet_append_mid_isSome pre post _ e

/-! ### Decimal rendering: auxiliary facts -/

/-- Little-endian decimal decoding, inverse to `natDigitsAux`. -/
def fromDigits : List Nat → Nat
  | [] => 0
  | d :: rest => d + 10 * fromDigits rest

theorem fromDigits_natDigitsAux (fuel n : Nat) (h : n ≤ fuel) :
    fromDigits (natDigitsAux fuel n) = n := by
  induction fuel generalizing n with
  | zero =>
      have : n = 0 := Nat.le_zero.mp h
      simp [this, natDigitsAux, fromDigits]
  | succ fuel ih =>
      by_cases hn : n = 0
      · simp [hn, natDigitsAux, fromDigits]
      · have hdiv : n / 10 ≤ fuel := by
          have hlt : n / 10 < n := Nat.div_lt_self (Nat.pos_of_ne_zero hn) (by omega)
          omega
        simp [natDigitsAux, hn, fromDigits, ih _ hdiv]
        omega

theorem natDigitsAux_lt_ten (fuel n : Nat) :
    ∀ d ∈ natDigitsAux fuel n, d < 10 := by
  induction fuel generalizing n with
  | zero => simp [natDigitsAux]
  | succ fuel ih =>
      by_cases hn : n = 0
      · simp [natDigitsAux, hn]
      · simp only [natDigitsAux, hn, if_false]
        intro d hd
        rcases List.mem_cons.mp hd with h | h
        · subst h; exact Nat.mod_lt _ (by omega)
        · exact ih _ d h

theorem digitChr_inj : ∀ a : Fin 10, ∀ b : Fin 10,
    digitChr a.val = digitChr b.val → a = b := by decide

theorem map_digitChr_inj (l1 l2 : List Nat)
    (h1 : ∀ d ∈ l1, d < 10) (h2 : ∀ d ∈ l2, d < 10)
    (h : l1.map digitChr = l2.map digitChr) : l1 = l2 := by
  induction l1 generalizing l2 with
  | nil => cases l2 <;> simp_all
  | cons a rest ih =>
      cases l2 with
      | nil => simp at h
      | cons b rest2 =>
          simp only [List.map_cons, List.cons.injEq] at h
          have ha : a < 10 := h1 a (by simp)
          have hb : b < 10 := h2 b (by simp)
          have hab : a = b := by
            have := digitChr_inj ⟨a, ha⟩ ⟨b, hb⟩ h.1
            exact congrArg Fin.val this
          have hrest : rest = rest2 :=
            ih rest2 (fun d hd => h1 d (List.mem_cons_of_mem _ hd))
              (fun d hd => h2 d (List.mem_cons_of_mem _ hd)) h.2
          rw [hab, hrest]

theorem natToString_ne_zero_str (n : Nat) (hn : n ≠ 0) : natToString n ≠ "0" := by
  intro h
  unfold natToString at h
  rw [if_neg hn] at h
  have hdata : ((natDigitsAux n n).reverse.map digitChr) = ['0'] := by
    have := congrArg String.data h
    simpa using this
  have hrev : (natDigitsAux n n).reverse = [0] := by
    have hl : ∀ d ∈ (natDigitsAux n n).reverse, d < 10 := by
      intro d hd
      exact natDigitsAux_lt_ten n n d (List.mem_reverse.mp hd)
    have h0 : ([0] : List Nat).map digitChr = ['0'] := by decide
    exact map_digitChr_inj _ _ hl (by simp) (hdata.trans h0.symm)
  have hdig : natDigitsAux n n = [0] := by
    have := congrArg List.reverse hrev
    simpa using this
  have := fromDigits_natDigitsAux n n (le_refl n)
  rw [hdig] at this
  simp [fromDigits] at this
  exact hn this.symm

theorem natToString_inj (m n : Nat) (h : natToString m = natToString n) : m = n := by
  by_cases hm : m = 0
  · by_cases hn : n = 0
    · rw [hm, hn]
    · exact absurd h.symm (by simpa [hm, natToString] using natToString_ne_zero_str n hn)
  · by_cases hn : n = 0
    · exact absurd h (by simpa [hn, natToString] using natToString_ne_zero_str m hm)
    · unfold natToString at h
      rw [if_neg hm, if_neg hn] at h
      have hdata := congrArg String.data h
      simp only [String.data] at hdata
      have hrev : (natDigitsAux m m).reverse = (natDigitsAux n n).reverse := by
        refine map_digitChr_inj _ _ ?_ ?_ hdata
        · intro d hd; exact natDigitsAux_lt_ten m m d (List.mem_reverse.mp hd)
        · intro d hd; exact natDigitsAux_lt_ten n n d (List.mem_reverse.mp hd)
      have hdig : natDigitsAux m m = natDigitsAux n n := by
        have := congrArg List.reverse hrev
        simpa using this
      calc m = fromDigits (natDigitsAux m m) := (fromDigits_natDigitsAux m m (le_refl m)).symm
        _ = fromDigits (natDigitsAux n n) := by rw [hdig]
        _ = n := fromDigits_natDigitsAux n n (le_refl n)

theorem natToString_length_pos (n : Nat) : 0 < (natToString n).length := by
  unfold natToString
  by_cases hn : n = 0
  · rw [if_pos hn]; decide
  · rw [if_neg hn]
    have hne : natDigitsAux n n ≠ [] := by
      cases n with
      | zero => exact absurd rfl hn
      | succ m => simp [natDigitsAux]
    show 0 < ((natDigitsAux n n).reverse.map digitChr).length
    rw [List.length_map, List.length_reverse]
    exact List.length_pos.mpr hne

/-! ## String and path helpers (Node `path` on POSIX, JS string methods) -/

/-- The basename characters: everything after the last `/`. -/
def basenameChars (cs : List Char) : List Char :=
  ((cs.reverse.takeWhile (fun c => c ≠ '/')).reverse)

/-- Index of the last `.` in a character list, if any. -/
def lastDotIdx (cs : List Char) : Option Nat :=
  match (cs.reverse.findIdx? (fun c => c = '.')) with
  | none => none
  | some j => some (cs.length - 1 - j)

/-- Embedding of Node `path.extname` (POSIX): the extension of the basename,
empty when the basename has no dot, when its only dot is its first
character, or for the special name `".."`. -/
def extname (s : String) : String :=
  let base := basenameChars s.data
  match lastDotIdx base with
  | none => ""
  | some i =>
      if i = 0 then ""
      else if base = ['.', '.'] then ""
      else String.mk (base.drop i)

/-- Embedding of `path.parse(s).name`: the basename without its extension. -/
def parseName (s : String) : String :=
  let base := basenameChars s.data
  String.mk (base.take (base.length - (extname s).length))

/-- Embedding of `path.basename`. -/
def basename (s : String) : String :=
  String.mk (basenameChars s.data)

/-- `ALLOWED_EXTENSIONS` of the `/convert` route. -/
def ALLOWED_EXTENSIONS : List String :=
  [".doc", ".docx", ".odt", ".rtf", ".ppt", ".pptx", ".odp",
   ".xls", ".xlsx", ".ods", ".txt", ".pdf"]

/-- `ALLOWED_EXTENSIONS.has(ext)`. -/
def allowedExt (ext : String) : Bool :=
  ALLOWED_EXTENSIONS.contains ext

/-- `XLSX_NORMALIZE_EXTENSIONS.has(ext)`. -/
def xlsxNormalizeExt (ext : String) : Bool :=
  ext = ".xls" || ext = ".xlsx"

/-! ## Path resolution (Node `path.resolve`, POSIX, absolute base)

In the source only absolute paths are resolved (`path.resolve(outDir)` with
`outDir` under `/tmp`, and `path.resolve(normalizedOutDir, src)`), so the
embedding covers the absolute-base case: split on `/`, process `.` and `..`
segments (with `..` at the root staying at the root), and rejoin. -/

def splitSegs (s : String) : List String :=
  ((splitChar '/' s.data).map String.mk).filter (fun t => t ≠ "")

def normSegs (segs : List String) : List String :=
  segs.foldl
    (fun acc seg =>
      if seg = "." then acc
      else if seg = ".." then acc.dropLast
      else acc ++ [seg]) []

/-- `path.resolve(p)` for an absolute `p`. -/
def resolveOne (p : String) : String :=
  "/" ++ strIntercalate ("/") (normSegs (splitSegs p))

/-- `path.resolve(base, rel)` for an absolute `base`. -/
def resolvePath (base rel : String) : String :=
  if strStartsWith rel ("/") then
    "/" ++ strIntercalate ("/") (normSegs (splitSegs rel))
  else
    "/" ++ strIntercalate ("/") (normSegs (splitSegs base ++ splitSegs rel))

/-- `p` denotes a file at or under directory `dir` (true containment, the
property the spec's path-traversal guard is described with). -/
def isUnder (dir p : String) : Prop :=
  p = dir ∨ strStartsWith p (dir ++ "/") = true

instance (dir p : String) : Decidable (isUnder dir p) := by
  unfold isUnder
  infer_instance

/-! ## Filter-argument construction (`buildFilterArg`, `runSoffice`) -/

/-- The value types a filter-data option can carry
(`Record<string, boolean | number | string>`). -/
inductive FilterValue
  | b (v : Bool)
  | n (v : Int)
  | s (v : String)
  deriving DecidableEq

/-- One `'key':value` item of the serialized filter data: string values are
single-quoted, boolean and number values rendered bare by the JS template. -/
def serializePair (p : String × FilterValue) : String :=
  match p.2 with
  | .s v => "\x27" ++ p.1 ++ "\x27:\x27" ++ v ++ "\x27"
  | .b true => "\x27" ++ p.1 ++ "\x27:true"
  | .b false => "\x27" ++ p.1 ++ "\x27:false"
  | .n i => "\x27" ++ p.1 ++ "\x27:" ++ intToString i

/-- `buildFilterArg(filterName, filterOptions)`. -/
def buildFilterArg (filterName : String)
    (filterOptions : Option (List (String × FilterValue))) : String :=
  match filterOptions with
  | none => "pdf:" ++ filterName
  | some opts =>
      if opts.isEmpty then "pdf:" ++ filterName
      else
        "pdf:" ++ filterName ++ ":FilterData=\x7b" ++
          strIntercalate (",") (opts.map serializePair) ++ "\x7d"

/-- The filter selection of `runSoffice`: document category from the input
path's extension, then the format-specific options, defaulting to the
writer filter with no options. -/
def sofficeFilterArg (inputPath : String) : String :=
  let ext := strLower (extname inputPath)
  let isExcel := ext = ".xls" || ext = ".xlsx" || ext = ".ods"
  let isWord := ext = ".doc" || ext = ".docx" || ext = ".odt"
  let isPowerPoint := ext = ".ppt" || ext = ".pptx" || ext = ".odp"
  let sel : String × Option (List (String × FilterValue)) :=
    if isExcel then
      ("calc_pdf_Export", some
        [("SinglePageSheets", .b true), ("UseLosslessCompression", .b true),
         ("ReduceImageResolution", .b false), ("SelectionOnly", .b false),
         ("ExportNotes", .b false), ("ScaleToPagesX", .n 1),
         ("ScaleToPagesY", .n 1)])
    else if isPowerPoint then
      ("impress_pdf_Export", some
        [("ExportNotesPages", .b false), ("ExportOnlySelectedSlides", .b false),
         ("UseLosslessCompression", .b true)])
    else if isWord then
      ("writer_pdf_Export", some
        [("UseLosslessCompression", .b true), ("ReduceImageResolution", .b false)])
    else ("writer_pdf_Export", none)
  buildFilterArg sel.1 sel.2

/-! ## The HTML asset inliner (`runHtmlExport`, lines after the converter run) -/

/-- `guessMimeType(filePath)`. -/
def guessMimeType (filePath : String) : String :=
  let ext := strLower (extname filePath)
  if ext = ".png" then "image/png"
  else if ext = ".jpg" then "image/jpeg"
  else if ext = ".jpeg" then "image/jpeg"
  else if ext = ".gif" then "image/gif"
  else if ext = ".svg" then "image/svg+xml"
  else if ext = ".bmp" then "image/bmp"
  else if ext = ".webp" then "image/webp"
  else "application/octet-stream"

/-- Standard base64 alphabet, used by `Buffer.prototype.toString('base64')`. -/
def base64Chars : List Char :=
  "ABCDEFGHIJKLMNOPQRSTUVWXYZabcdefghijklmnopqrstuvwxyz0123456789+/".data

def b64c (n : Nat) : Char := base64Chars.getD n '?'

/-- Base64 encoding of a byte list (values `< 256`). -/
def base64Encode : List Nat → String
  | [] => ""
  | [a] => String.mk [b64c (a / 4), b64c (a % 4 * 16)] ++ "=="
  | [a, b] =>
      String.mk [b64c (a / 4), b64c (a % 4 * 16 + b / 16), b64c (b % 16 * 4)] ++ "="
  | a :: b :: c :: rest =>
      String.mk [b64c (a / 4), b64c (a % 4 * 16 + b / 16),
        b64c (b % 16 * 4 + c / 64), b64c (c % 64)] ++ base64Encode rest

/-- The pattern scanned for by the asset regex `/src="([^"]+)"/gi`
(`s`, `r`, `c` matched case-insensitively). -/
def srcPat : List Char := ['s', 'r', 'c', '=', '"']

def startsWithCI : List Char → List Char → Bool
  | [], _ => true
  | _ :: _, [] => false
  | p :: ps, c :: cs => (p.toLower == c.toLower) && startsWithCI ps cs

/-- `html.matchAll(/src="([^"]+)"/gi)`: all captured attribute values, in
document order; after a match the scan continues past the closing quote.
Driven by fuel (the initial character count always suffices). -/
def findSrcsAux : Nat → List Char → List String
  | 0, _ => []
  | _ + 1, [] => []
  | fuel + 1, c :: rest =>
    if startsWithCI srcPat (c :: rest) then
      let after := rest.drop 4
      let val := after.takeWhile (fun ch => ch != '"')
      let rem := after.dropWhile (fun ch => ch != '"')
      if val.isEmpty || rem.isEmpty then findSrcsAux fuel rest
      else String.mk val :: findSrcsAux fuel (rem.drop 1)
    else findSrcsAux fuel rest

def findSrcs (cs : List Char) : List String := findSrcsAux cs.length cs

/-- `src` matches `/^(data:|https?:|file:|\/\/)/i`. -/
def isRemoteSrc (src : String) : Bool :=
  let l := strLower src
  strStartsWith l ("data:") || strStartsWith l ("http:") || strStartsWith l ("https:")
    || strStartsWith l ("file:") || strStartsWith l ("//")

/-- The per-match loop of the inliner.  `readAsset` is the filesystem
oracle for `fs.readFile` (`none` = the read throws and the reference is
skipped).  Returns the transformed HTML and the list of `src` values whose
references were replaced by data URIs (embedded). -/
def inlineLoop (outDir : String) (readAsset : String → Option Buffer) :
    List String → List String → String → List String → String × List String
  | [], _, transformed, embedded => (transformed, embedded)
  | src :: rest, seen, transformed, embedded =>
    if src = "" || isRemoteSrc src then
      inlineLoop outDir readAsset rest seen transformed embedded
    else if seen.contains src then
      inlineLoop outDir readAsset rest seen transformed embedded
    else
      let seen2 := seen ++ [src]
      let assetPath := resolvePath outDir src
      if !strStartsWith assetPath outDir then
        inlineLoop outDir readAsset rest seen2 transformed embedded
      else
        match readAsset assetPath with
        | none => inlineLoop outDir readAsset rest seen2 transformed embedded
        | some bytes =>
            let dataUri :=
              "data:" ++ guessMimeType assetPath ++ ";base64," ++ base64Encode bytes
            let transformed2 :=
              strReplace transformed ("src=\"" ++ src ++ "\"")
                ("src=\"" ++ dataUri ++ "\"")
            inlineLoop outDir readAsset rest seen2 transformed2 (embedded ++ [src])

/-- The asset-inlining pass of `runHtmlExport`: scan the HTML for `src`
attributes, skip absolute/remote references, de-duplicate, apply the
`startsWith` path guard against the resolved output directory, and replace
each surviving reference (whose asset is readable) everywhere in the
document. -/
def inlineAssets (outDir html : String) (readAsset : String → Option Buffer) :
    String × List String :=
  let normalizedOutDir := resolveOne outDir
  inlineLoop normalizedOutDir readAsset (findSrcs html.data) [] html []

/-! ## Sheet display names and result-key de-duplication (`/convert-excel`) -/

/-- The candidate keys tried by the collision loop: first the display name
itself, then `dn (2)`, `dn (3)`, ... -/
def cand (dn : String) : Nat → String
  | 0 => dn
  | i + 1 => dn ++ " (" ++ natToString (i + 2) ++ ")"

/-- The `while (hasOwnProperty(results, resultKey))` loop, walking the
candidate sequence; fuel-driven (fuel `used.length + 1` always suffices,
see `resultKeyFor_not_mem`). -/
def keyLoopC (used : List String) (dn : String) : Nat → Nat → String
  | 0, i => cand dn i
  | fuel + 1, i => if cand dn i ∈ used then keyLoopC used dn fuel (i + 1) else cand dn i

/-- The result key chosen for display name `dn` given the keys already
`used` in this response. -/
def resultKeyFor (used : List String) (dn : String) : String :=
  keyLoopC used dn (used.length + 1) 0

/-- `sheetName && sheetName.trim().length > 0 ? sheetName : 'Sheet N'`
(1-indexed). -/
def displayNameOf (index : Nat) (name : String) : String :=
  if name ≠ "" ∧ 0 < (strTrim name).length then name
  else "Sheet " ++ natToString (index + 1)

/-! ### Properties of the candidate sequence and the key loop -/

theorem string_append_cancel_left (a b c : String) (h : a ++ b = a ++ c) :
    b = c := by
  have hd : a.data ++ b.data = a.data ++ c.data := by
    have := congrArg String.data h
    simpa [String.data_append] using this
  have := List.append_cancel_left hd
  cases b; cases c
  exact congrArg String.mk this

theorem string_append_cancel_right (a b c : String) (h : a ++ c = b ++ c) :
    a = b := by
  have hd : a.data ++ c.data = b.data ++ c.data := by
    have := congrArg String.data h
    simpa [String.data_append] using this
  have := List.append_cancel_right hd
  cases a; cases b
  exact congrArg String.mk this

theorem cand_zero_ne_succ (dn : String) (j : Nat) : cand dn 0 ≠ cand dn (j + 1) := by
  intro h
  have hlen := congrArg String.length h
  simp only [cand, String.length_append] at hlen
  have h2 : 0 < (natToString (j + 2)).length := natToString_length_pos _
  have h3 : (" (" : String).length = 2 := by decide
  have h4 : (")" : String).length = 1 := by decide
  omega

theorem cand_inj (dn : String) : Function.Injective (cand dn) := by
  intro i j h
  match i, j with
  | 0, 0 => rfl
  | 0, j + 1 => exact absurd h (cand_zero_ne_succ dn j)
  | i + 1, 0 => exact absurd h.symm (cand_zero_ne_succ dn i)
  | i + 1, j + 1 =>
      simp only [cand] at h
      have h1 : (dn ++ " (") ++ natToString (i + 2) = (dn ++ " (") ++ natToString (j + 2) := by
        apply string_append_cancel_right _ _ (")")
        simpa [String.append_assoc] using h
      have h2 := string_append_cancel_left _ _ _ h1
      have := natToString_inj _ _ h2
      omega

theorem keyLoopC_shape (used : List String) (dn : String) :
    ∀ fuel i, ∃ j, i ≤ j ∧ keyLoopC used dn fuel i = cand dn j := by
  intro fuel
  induction fuel with
  | zero => intro i; exact ⟨i, le_refl _, rfl⟩
  | succ fuel ih =>
      intro i
      by_cases h : cand dn i ∈ used
      · rcases ih (i + 1) with ⟨j, hij, hj⟩
        exact ⟨j, by omega, by simp [keyLoopC, h, hj]⟩
      · exact ⟨i, le_refl _, by simp [keyLoopC, h]⟩

theorem keyLoopC_not_mem (used : List String) (dn : String) :
    ∀ fuel i,
      (List.range fuel).countP (fun k => decide (cand dn (i + k) ∈ used)) < fuel →
      keyLoopC used dn fuel i ∉ used := by
  intro fuel
  induction fuel with
  | zero => intro i h; omega
  | succ fuel ih =>
      intro i h
      by_cases hc : cand dn i ∈ used
      · simp only [keyLoopC, hc, if_true]
        apply ih
        rw [List.range_succ_eq_map, List.countP_cons, List.countP_map] at h
        have h0 : decide (cand dn (i + 0) ∈ used) = true := by simpa using hc
        rw [h0] at h
        simp only [if_true] at h
        have hcomp :
            (List.range fuel).countP
                ((fun k => decide (cand dn (i + k) ∈ used)) ∘ Nat.succ) =
            (List.range fuel).countP
                (fun k => decide (cand dn (i + 1 + k) ∈ used)) := by
          apply List.countP_congr
          intro k _
          have harg : i + Nat.succ k = i + 1 + k := by omega
          simp [Function.comp, harg]
        rw [hcomp] at h
        omega
      · simp [keyLoopC, hc]

theorem countP_cand_le (used : List String) (dn : String) (n : Nat) :
    (List.range n).countP (fun k => decide (cand dn (0 + k) ∈ used)) ≤ used.length := by
  rw [List.countP_eq_length_filter]
  set l := (List.range n).filter (fun k => decide (cand dn (0 + k) ∈ used)) with hl
  have hmapped : (l.map (cand dn)).length = l.length := List.length_map _ _
  rw [← hmapped]
  apply List.Subperm.length_le
  apply List.subperm_of_subset
  · exact List.Nodup.map (cand_inj dn) (List.Nodup.filter _ (List.nodup_range n))
  · intro x hx
    rcases List.mem_map.mp hx with ⟨k, hk, hcand⟩
    have := List.of_mem_filter hk
    rw [← hcand]
    simpa using this

/-- The chosen key is never one already used: fuel `used.length + 1`
always suffices for the while-loop to find a fresh candidate. -/
theorem resultKeyFor_not_mem (used : List String) (dn : String) :
    resultKeyFor used dn ∉ used := by
  apply keyLoopC_not_mem
  have := countP_cand_le used dn (used.length + 1)
  omega

/-- When the display name is not yet used, it is taken unchanged. -/
theorem resultKeyFor_of_not_mem (used : List String) (dn : String)
    (h : dn ∉ used) : resultKeyFor used dn = dn := by
  have h0 : cand dn 0 = dn := rfl
  unfold resultKeyFor
  cases hf : used.length + 1 with
  | zero => omega
  | succ fuel => simp [keyLoopC, h0, h]

/-- On a collision the chosen key has the suffixed form `dn (j)` with `j ≥ 2`. -/
theorem resultKeyFor_collision_shape (used : List String) (dn : String)
    (h : dn ∈ used) :
    ∃ j, 2 ≤ j ∧ resultKeyFor used dn = dn ++ " (" ++ natToString j ++ ")" := by
  rcases keyLoopC_shape used dn (used.length + 1) 0 with ⟨j, _, hj⟩
  match j with
  | 0 =>
      exfalso
      have := resultKeyFor_not_mem used dn
      rw [resultKeyFor] at this
      rw [hj] at this
      exact this h
  | j + 1 =>
      refine ⟨j + 2, by omega, ?_⟩
      rw [resultKeyFor, hj]
      rfl

/-- Every candidate skipped by the loop was indeed already used ("append
until unique"). -/
theorem keyLoopC_skipped_mem (used : List String) (dn : String) :
    ∀ fuel i j, keyLoopC used dn fuel i = cand dn j →
      cand dn j ∉ used → ∀ m, i ≤ m → m < j → cand dn m ∈ used := by
  intro fuel
  induction fuel with
  | zero =>
      intro i j h _ m him hmj
      have := cand_inj dn h
      omega
  | succ fuel ih =>
      intro i j h hnot m him hmj
      by_cases hc : cand dn i ∈ used
      · simp only [keyLoopC, hc, if_true] at h
        by_cases hm : m = i
        · rw [hm]; exact hc
        · exact ih (i + 1) j h hnot m (by omega) hmj
      · simp only [keyLoopC, hc, if_false] at h
        have := cand_inj dn h
        omega

/-! ## The HTTP handlers (`/convert`, `/convert-excel`)

The handlers are embedded as pure functions of the multipart upload
(`req.file`), the current cache, and an *effect oracle* giving the outcome
of every awaited effect: `mkdir`/`writeFile`/`execFile`/PDF
resolution+read each either resolve (`Except.ok`) or throw
(`Except.error message`).  `jobId` stands for the fresh
`crypto.randomUUID()` (which contains no path syntax, so `path.join` is
plain concatenation with `/`);  `hashFn` stands for
`crypto.createHash('sha256').update(buffer).digest('hex')` — by
construction applied to the raw bytes only, never to the filename.  The
trace records each side effect the handler *attempts*, in order; the final
`fs.rm(tmpDir, {recursive, force}).catch(() => {})` of the `finally` block
is always attempted and its outcome (`rmOk`) is swallowed, inspected by
nothing. -/

structure UploadedFile where
  originalname : String
  buffer : Buffer
  deriving DecidableEq

inductive Event
  | mkdirEv (dir : String)
  | writeEv (filePath : String) (data : Buffer)
  | sofficeEv (inputPath : String) (outDir : String) (filterArg : String)
  | sheetEv (index : Nat) (sheetDir : String)
  | rmEv (dir : String)
  deriving DecidableEq

inductive Response
  | err (status : Nat) (msg : String)
  | pdf (filename : String) (body : Buffer)
  | sheetsJson (entries : List (String × String))
  deriving DecidableEq

/-- Outcomes of the awaited effects of one `/convert` request. -/
structure ConvertOracle where
  jobId : String
  mkdir : Except String Unit
  normalize : Except String Buffer
  writeFile : Except String Unit
  soffice : Except String Unit
  resolvePdf : Except String String
  readPdf : Except String Buffer
  rmOk : Bool

def convFailMsg (e : String) : String := "Convert failed: " ++ e

/-- The `try` block of `/convert` after the workspace path has been fixed
(mkdir, optional spreadsheet normalization with its local `catch`, input
write, `runSoffice`, PDF resolution, PDF read, `remember`). -/
def convertMissPath (c : Cache) (now : Nat) (f : UploadedFile)
    (extension hash tmpDir inputPath : String) (o : ConvertOracle) :
    Response × List Event × Cache :=
  match o.mkdir with
  | .error e => (.err 500 (convFailMsg e), [.mkdirEv tmpDir], c)
  | .ok _ =>
    let workingBuffer :=
      if xlsxNormalizeExt extension then
        match o.normalize with
        | .ok nb => nb
        | .error _ => f.buffer
      else f.buffer
    match o.writeFile with
    | .error e =>
        (.err 500 (convFailMsg e),
         [.mkdirEv tmpDir, .writeEv inputPath workingBuffer], c)
    | .ok _ =>
      let tr := [Event.mkdirEv tmpDir, .writeEv inputPath workingBuffer,
        .sofficeEv inputPath tmpDir (sofficeFilterArg inputPath)]
      match o.soffice with
      | .error e => (.err 500 (convFailMsg e), tr, c)
      | .ok _ =>
        match o.resolvePdf with
        | .error e => (.err 500 (convFailMsg e), tr, c)
        | .ok pdfPath =>
          match o.readPdf with
          | .error e => (.err 500 (convFailMsg e), tr, c)
          | .ok pdfBuffer =>
              (.pdf (basename pdfPath) pdfBuffer, tr,
               remember hash pdfBuffer now c)

/-- The `/convert` handler. -/
def convertHandler (hashFn : Buffer → String) (c : Cache) (now : Nat)
    (file : Option UploadedFile) (o : ConvertOracle) :
    Response × List Event × Cache :=
  match file with
  | none => (.err 400 ("No file provided"), [], c)
  | some f =>
    let extension := strLower (extname f.originalname)
    if allowedExt extension then
      let hash := hashFn f.buffer
      match cacheGet c hash with
      | some cached =>
          (.pdf (parseName f.originalname ++ ".pdf") cached.buffer, [], c)
      | none =>
        let tmpDir := "/tmp/converter-service/" ++ o.jobId
        let inputPath := tmpDir ++ "/" ++ f.originalname
        let r := convertMissPath c now f extension hash tmpDir inputPath o
        (r.1, r.2.1 ++ [.rmEv tmpDir], r.2.2)
    else
      (.err 400 ("Unsupported file type. Please upload a document, spreadsheet, or presentation."),
       [], c)

/-- The workbook structure consulted by `/convert-excel`:
`workbook.SheetNames` and presence in `workbook.Sheets`. -/
structure Workbook where
  sheetNames : List String
  hasSheet : String → Bool

/-- Outcomes of the awaited effects of one `/convert-excel` request.
`sheetRun i` bundles the per-sheet effects for sheet index `i` (sheet
directory creation, single-sheet workbook write, `convertSheetToHtml`) into
one fallible step producing the sheet's HTML. -/
structure ExcelOracle where
  jobId : String
  mkdir : Except String Unit
  parse : Except String Workbook
  sheetRun : Nat → Except String String
  rmOk : Bool

def excelFailMsg (e : String) : String := "Convert Excel failed: " ++ e

/-- The `for (const [index, sheetName] of sheetNames.entries())` loop:
skips names absent from `workbook.Sheets`, computes the de-duplicated
result key, runs the per-sheet conversion, and aborts the whole request on
the first per-sheet failure. -/
def excelSheetsLoop (sr : Nat → Except String String) (tmpDir : String)
    (wb : Workbook) :
    List (Nat × String) → List (String × String) → List Event →
    (Response × List Event) ⊕ (List (String × String) × List Event)
  | [], results, tr => Sum.inr (results, tr)
  | (index, sheetName) :: rest, results, tr =>
    if wb.hasSheet sheetName then
      let displayName := displayNameOf index sheetName
      let resultKey := resultKeyFor (results.map (fun p => p.1)) displayName
      let sheetDir := tmpDir ++ "/sheet-" ++ natToString (index + 1)
      match sr index with
      | .error e =>
          Sum.inl (.err 500 (excelFailMsg e), tr ++ [.sheetEv index sheetDir])
      | .ok html =>
          excelSheetsLoop sr tmpDir wb rest (results ++ [(resultKey, html)])
            (tr ++ [.sheetEv index sheetDir])
    else excelSheetsLoop sr tmpDir wb rest results tr

/-- The `try` block of `/convert-excel` (mkdir, workbook parse, zero-sheet
check, per-sheet loop). -/
def excelTryBody (tmpDir : String) (o : ExcelOracle) : Response × List Event :=
  match o.mkdir with
  | .error e => (.err 500 (excelFailMsg e), [.mkdirEv tmpDir])
  | .ok _ =>
    match o.parse with
    | .error e => (.err 500 (excelFailMsg e), [.mkdirEv tmpDir])
    | .ok wb =>
      if wb.sheetNames.length = 0 then
        (.err 400 ("Workbook does not contain any sheets."), [.mkdirEv tmpDir])
      else
        match excelSheetsLoop o.sheetRun tmpDir wb wb.sheetNames.enum [] [.mkdirEv tmpDir] with
        | Sum.inl r => r
        | Sum.inr (results, tr) => (.sheetsJson results, tr)

/-- The `/convert-excel` handler. -/
def excelHandler (file : Option UploadedFile) (o : ExcelOracle) :
    Response × List Event :=
  match file with
  | none => (.err 400 ("No file uploaded"), [])
  | some f =>
    let extension := strLower (extname f.originalname)
    if xlsxNormalizeExt extension then
      let tmpDir := "/tmp/converter-service/excel/" ++ o.jobId
      let r := excelTryBody tmpDir o
      (r.1, r.2 ++ [.rmEv tmpDir])
    else
      (.err 400 ("Unsupported file type. Please upload an Excel file (.xls, .xlsx)."),
       [])

/-- A `/convert` request reaches the `try`/`finally` block (and hence
allocates a workspace path): a file is attached, its extension is allowed,
and the content hash misses the cache. -/
def convertEntersTry (hashFn : Buffer → String) (c : Cache)
    (file : Option UploadedFile) : Prop :=
  ∃ f, file = some f ∧ allowedExt (strLower (extname f.originalname)) = true ∧
    cacheGet c (hashFn f.buffer) = none

/-- A `/convert-excel` request reaches the `try`/`finally` block: a file is
attached with a spreadsheet extension. -/
def excelEntersTry (file : Option UploadedFile) : Prop :=
  ∃ f, file = some f ∧ xlsxNormalizeExt (strLower (extname f.originalname)) = true

/-! ## Further cache lemmas (bound invariant) -/

theorem mem_cacheSet (c : Cache) (k : String) (v : CacheEntry) (p : String × CacheEntry)
    (h : p ∈ cacheSet c k v) : p = (k, v) ∨ p ∈ c := by
  induction c with
  | nil =>
      simp [cacheSet] at h
      exact Or.inl (by simp [h])
  | cons q rest ih =>
      by_cases hq : q.1 = k
      · simp only [cacheSet, hq, if_true] at h
        rcases List.mem_cons.mp h with h | h
        · exact Or.inl h
        · exact Or.inr (List.mem_cons_of_mem _ h)
      · simp only [cacheSet, hq, if_false] at h
        rcases List.mem_cons.mp h with h | h
        · exact Or.inr (by simp [h])
        · rcases ih h with h | h
          · exact Or.inl h
          · exact Or.inr (List.mem_cons_of_mem _ h)

theorem mem_cacheDelete (c : Cache) (k : String) (p : String × CacheEntry)
    (h : p ∈ cacheDelete c k) : p ∈ c := by
  induction c with
  | nil => simp [cacheDelete] at h
  | cons q rest ih =>
      by_cases hq : q.1 = k
      · simp only [cacheDelete, hq, if_true] at h
        exact List.mem_cons_of_mem _ h
      · simp only [cacheDelete, hq, if_false] at h
        rcases List.mem_cons.mp h with h | h
        · simp [h]
        · exact List.mem_cons_of_mem _ (ih h)

/-- One `remember` with a non-empty hash preserves non-empty keys and the
capacity bound. -/
theorem remember_preserves (hash : String) (b : Buffer) (now : Nat) (c : Cache)
    (hhash : hash ≠ "") (hkeys : ∀ p ∈ c, p.1 ≠ "")
    (hlen : c.length ≤ MAX_CACHE_ITEMS) :
    (∀ p ∈ remember hash b now c, p.1 ≠ "") ∧
      (remember hash b now c).length ≤ MAX_CACHE_ITEMS := by
  unfold remember
  by_cases hcap : MAX_CACHE_ITEMS ≤ c.length
  · have hne : c ≠ [] := by
      intro hnil
      rw [hnil] at hcap
      simp [MAX_CACHE_ITEMS] at hcap
    rcases findOldest_spec c hne with ⟨mk, mt, pre, e, post, heq, hsplit, _, _, _⟩
    have hmkmem : (mk, e) ∈ c := by rw [hsplit]; simp
    have hmkne : mk ≠ "" := hkeys (mk, e) hmkmem
    have hsome : (cacheGet c mk).isSome := findOldest_mem c mk mt heq
    have hdel : (cacheDelete c mk).length + 1 = c.length :=
      length_cacheDelete_of_mem c mk hsome
    simp only [hcap, if_true, heq, if_neg hmkne]
    constructor
    · intro p hp
      rcases mem_cacheSet _ _ _ p hp with h | h
      · rw [h]; exact hhash
      · exact hkeys p (mem_cacheDelete _ _ _ h)
    · have := length_cacheSet_le (cacheDelete c mk) hash ⟨b, now⟩
      omega
  · simp only [hcap, if_false]
    constructor
    · intro p hp
      rcases mem_cacheSet _ _ _ p hp with h | h
      · rw [h]; exact hhash
      · exact hkeys p h
    · have := length_cacheSet_le c hash ⟨b, now⟩
      have : c.length < MAX_CACHE_ITEMS := by omega
      have := length_cacheSet_le c hash ⟨b, now⟩
      omega

theorem applyPuts_preserves (ps : List (String × Buffer × Nat)) :
    ∀ c : Cache, (∀ p ∈ ps, p.1 ≠ "") → (∀ p ∈ c, p.1 ≠ "") →
      c.length ≤ MAX_CACHE_ITEMS →
      (∀ p ∈ applyPuts ps c, p.1 ≠ "") ∧
        (applyPuts ps c).length ≤ MAX_CACHE_ITEMS := by
  induction ps with
  | nil => intro c _ hk hl; exact ⟨hk, hl⟩
  | cons q rest ih =>
      intro c hps hk hl
      have hq : q.1 ≠ "" := hps q (by simp)
      have hrec := remember_preserves q.1 q.2.1 q.2.2 c hq hk hl
      have : applyPuts (q :: rest) c = applyPuts rest (remember q.1 q.2.1 q.2.2 c) := rfl
      rw [this]
      exact ih _ (fun p hp => hps p (List.mem_cons_of_mem _ hp)) hrec.1 hrec.2

/-! ## Concrete caches and put sequences used by the cache claims -/

/-- 21 puts with distinct keys, the first with the empty-string key and the
smallest timestamp. -/
def putsCE : List (String × Buffer × Nat) :=
  [("", [], 0), ("k1", [], 1), ("k2", [], 2), ("k3", [], 3), ("k4", [], 4),
   ("k5", [], 5), ("k6", [], 6), ("k7", [], 7), ("k8", [], 8), ("k9", [], 9),
   ("k10", [], 10), ("k11", [], 11), ("k12", [], 12), ("k13", [], 13),
   ("k14", [], 14), ("k15", [], 15), ("k16", [], 16), ("k17", [], 17),
   ("k18", [], 18), ("k19", [], 19), ("k20", [], 20)]

/-- A full cache of 20 entries with non-empty keys, `k0` the oldest. -/
def capCache : Cache :=
  [("k0", ⟨[], 0⟩), ("k1", ⟨[], 1⟩), ("k2", ⟨[], 2⟩), ("k3", ⟨[], 3⟩),
   ("k4", ⟨[], 4⟩), ("k5", ⟨[], 5⟩), ("k6", ⟨[], 6⟩), ("k7", ⟨[], 7⟩),
   ("k8", ⟨[], 8⟩), ("k9", ⟨[], 9⟩), ("k10", ⟨[], 10⟩), ("k11", ⟨[], 11⟩),
   ("k12", ⟨[], 12⟩), ("k13", ⟨[], 13⟩), ("k14", ⟨[], 14⟩), ("k15", ⟨[], 15⟩),
   ("k16", ⟨[], 16⟩), ("k17", ⟨[], 17⟩), ("k18", ⟨[], 18⟩), ("k19", ⟨[], 19⟩)]

/-- A full cache of 20 entries whose oldest entry has the empty-string key. -/
def emptyKeyCache : Cache :=
  [("", ⟨[], 0⟩), ("k1", ⟨[], 1⟩), ("k2", ⟨[], 2⟩), ("k3", ⟨[], 3⟩),
   ("k4", ⟨[], 4⟩), ("k5", ⟨[], 5⟩), ("k6", ⟨[], 6⟩), ("k7", ⟨[], 7⟩),
   ("k8", ⟨[], 8⟩), ("k9", ⟨[], 9⟩), ("k10", ⟨[], 10⟩), ("k11", ⟨[], 11⟩),
   ("k12", ⟨[], 12⟩), ("k13", ⟨[], 13⟩), ("k14", ⟨[], 14⟩), ("k15", ⟨[], 15⟩),
   ("k16", ⟨[], 16⟩), ("k17", ⟨[], 17⟩), ("k18", ⟨[], 18⟩), ("k19", ⟨[], 19⟩)]

/-! ## Claim C2 -/

/-- C2 (counterexample): the cache bound fails as stated.  There is a
sequence of 21 `remember` calls after which the cache holds 21 entries,
exceeding `MAX_CACHE_ITEMS = 20`: when the entry with the smallest
`createdAt` has the empty-string key, the JS truthiness guard `if (lruKey)`
skips the eviction while the insertion still happens. -/
theorem cache_bound_counterexample :
    MAX_CACHE_ITEMS < (applyPuts putsCE []).length ∧
      (applyPuts putsCE []).length = 21 := by
  constructor <;> decide

/-- C2 (amended): for every sequence of `remember` calls whose hashes are
all non-empty (as holds in the service, where every hash is a 64-character
hex digest), the cache never exceeds `MAX_CACHE_ITEMS = 20` entries; and a
put performed at or above capacity on a cache with non-empty keys first
evicts exactly one entry — the first entry attaining the smallest recorded
`createdAt` (ties broken by iteration order) — before inserting the new
entry. -/
theorem cache_bound_amended :
    (∀ ps : List (String × Buffer × Nat), (∀ p ∈ ps, p.1 ≠ "") →
      (applyPuts ps []).length ≤ MAX_CACHE_ITEMS)
    ∧ (∀ (c : Cache) (hash : String) (b : Buffer) (now : Nat),
        MAX_CACHE_ITEMS ≤ c.length → (∀ p ∈ c, p.1 ≠ "") →
        ∃ mk mt pre e post, findOldest c = some (mk, mt) ∧ mk ≠ "" ∧
          c = pre ++ (mk, e) :: post ∧ e.createdAt = mt ∧
          (∀ p ∈ pre, mt < p.2.createdAt) ∧ (∀ p ∈ c, mt ≤ p.2.createdAt) ∧
          remember hash b now c = cacheSet (cacheDelete c mk) hash ⟨b, now⟩ ∧
          (cacheDelete c mk).length + 1 = c.length) := by
  constructor
  · intro ps hps
    exact (applyPuts_preserves ps [] hps (by simp) (by simp [MAX_CACHE_ITEMS])).2
  · intro c hash b now hcap hkeys
    have hne : c ≠ [] := by
      intro hnil
      rw [hnil] at hcap
      simp [MAX_CACHE_ITEMS] at hcap
    rcases findOldest_spec c hne with ⟨mk, mt, pre, e, post, heq, hsplit, het, hpre, hall⟩
    have hmkmem : (mk, e) ∈ c := by rw [hsplit]; simp
    have hmkne : mk ≠ "" := hkeys (mk, e) hmkmem
    have hsome : (cacheGet c mk).isSome := findOldest_mem c mk mt heq
    refine ⟨mk, mt, pre, e, post, heq, hmkne, hsplit, het, hpre, hall, ?_, ?_⟩
    · unfold remember
      simp [hcap, heq, hmkne]
    · exact length_cacheDelete_of_mem c mk hsome

/-- Witness for `cache_bound_amended` at concrete inputs. -/
theorem cache_bound_amended_witness :
    (applyPuts [(("a"), [], 0), (("b"), [], 1)] []).length ≤ MAX_CACHE_ITEMS ∧
      ∃ mk mt pre e post, findOldest capCache = some (mk, mt) ∧ mk ≠ "" ∧
        capCache = pre ++ (mk, e) :: post ∧ e.createdAt = mt ∧
        (∀ p ∈ pre, mt < p.2.createdAt) ∧ (∀ p ∈ capCache, mt ≤ p.2.createdAt) ∧
        remember ("h") [7] 99 capCache = cacheSet (cacheDelete capCache mk) ("h") ⟨[7], 99⟩ ∧
        (cacheDelete capCache mk).length + 1 = capCache.length :=
  ⟨cache_bound_amended.1 _ (by decide),
   cache_bound_amended.2 capCache ("h") [7] 99 (by decide) (by decide)⟩

/-! ## Claim C10 -/

/-- C10 (counterexample): at capacity with the put hash already present,
the eviction step runs but does *not* always remove the smallest-`createdAt`
entry: on `emptyKeyCache` (20 entries, oldest entry keyed by the empty
string, `k5` present) the `if (lruKey)` truthiness guard skips the
deletion, the oldest entry survives, and the cache stays at 20 entries. -/
theorem overwrite_eviction_counterexample :
    emptyKeyCache.length = 20 ∧
    (cacheGet emptyKeyCache ("k5")).isSome = true ∧
    findOldest emptyKeyCache = some ("", 0) ∧
    (∀ p ∈ emptyKeyCache, 0 ≤ p.2.createdAt) ∧
    cacheGet (remember ("k5") [9] 100 emptyKeyCache) ("") = some ⟨[], 0⟩ ∧
    (remember ("k5") [9] 100 emptyKeyCache).length = 20 := by
  refine ⟨by decide, by decide, by decide, by decide, by decide, by decide⟩

/-- C10 (amended): at capacity, provided the smallest-`createdAt` entry's
key is non-empty (always true in the service, whose keys are 64-character
hex digests), the eviction step still runs even when the put hash is
already a key: it removes the first entry with the smallest `createdAt`
before the existing key is overwritten, and when that entry is a different
key the cache shrinks by one — e.g. from 20 to 19 entries. -/
theorem overwrite_eviction_amended :
    (∀ (c : Cache) (hash : String) (b : Buffer) (now : Nat) (mk : String) (mt : Nat),
      MAX_CACHE_ITEMS ≤ c.length → findOldest c = some (mk, mt) → mk ≠ "" →
      remember hash b now c = cacheSet (cacheDelete c mk) hash ⟨b, now⟩)
    ∧ (∀ (c : Cache) (hash : String) (b : Buffer) (now : Nat) (mk : String) (mt : Nat),
      MAX_CACHE_ITEMS ≤ c.length → findOldest c = some (mk, mt) → mk ≠ "" →
      (cacheGet c hash).isSome → mk ≠ hash →
      (remember hash b now c).length + 1 = c.length)
    ∧ (remember ("k5") [9] 100 capCache).length = 19 := by
  refine ⟨?_, ?_, by decide⟩
  · intro c hash b now mk mt hcap heq hmk
    unfold remember
    simp [hcap, heq, hmk]
  · intro c hash b now mk mt hcap heq hmk hsomeHash hne
    have heqn : remember hash b now c = cacheSet (cacheDelete c mk) hash ⟨b, now⟩ := by
      unfold remember
      simp [hcap, heq, hmk]
    have hsomeMk : (cacheGet c mk).isSome := findOldest_mem c mk mt heq
    have hdel : (cacheDelete c mk).length + 1 = c.length :=
      length_cacheDelete_of_mem c mk hsomeMk
    have hget : cacheGet (cacheDelete c mk) hash = cacheGet c hash :=
      cacheGet_delete_ne c mk hash (fun hh => hne hh.symm)
    rw [heqn, length_cacheSet]
    rw [hget]
    simp only [hsomeHash, if_true]
    omega

/-- Witness for `overwrite_eviction_amended` at concrete inputs. -/
theorem overwrite_eviction_amended_witness :
    remember ("k5") [9] 100 capCache =
      cacheSet (cacheDelete capCache ("k0")) ("k5") ⟨[9], 100⟩ ∧
    (remember ("k5") [9] 100 capCache).length + 1 = capCache.length :=
  ⟨overwrite_eviction_amended.1 capCache ("k5") [9] 100 ("k0") 0
      (by decide) (by decide) (by decide),
   overwrite_eviction_amended.2.1 capCache ("k5") [9] 100 ("k0") 0
      (by decide) (by decide) (by decide) (by decide) (by decide)⟩

/-! ## Claim C4 -/

/-- A `src` whose resolved path fails the `startsWith` guard is never
embedded by the inliner loop. -/
theorem inlineLoop_guard_skip (outDir : String) (readAsset : String → Option Buffer)
    (src : String)
    (hguard : strStartsWith (resolvePath outDir src) outDir = false) :
    ∀ (srcs seen : List String) (transformed : String) (embedded : List String),
      src ∉ embedded →
      src ∉ (inlineLoop outDir readAsset srcs seen transformed embedded).2 := by
  intro srcs
  induction srcs with
  | nil =>
      intro seen transformed embedded h
      simpa [inlineLoop] using h
  | cons s rest ih =>
      intro seen transformed embedded h
      by_cases h1 : (s = "" || isRemoteSrc s) = true
      · rw [inlineLoop, if_pos h1]
        exact ih seen transformed embedded h
      · rw [inlineLoop, if_neg h1]
        by_cases h2 : seen.contains s = true
        · rw [if_pos h2]
          exact ih seen transformed embedded h
        · rw [if_neg h2]
          by_cases h3 : (!strStartsWith (resolvePath outDir s) outDir) = true
          · rw [if_pos h3]
            exact ih _ transformed embedded h
          · rw [if_neg h3]
            have hs : strStartsWith (resolvePath outDir s) outDir = true := by
              simpa using h3
            have hne : src ≠ s := by
              intro hss
              rw [hss] at hguard
              rw [hguard] at hs
              exact Bool.false_ne_true hs
            cases hr : readAsset (resolvePath outDir s) with
            | none => exact ih _ transformed embedded h
            | some bytes =>
                apply ih
                intro hmem
                rcases List.mem_append.mp hmem with hmem | hmem
                · exact h hmem
                · exact hne (List.mem_singleton.mp hmem)

/-- C4 (counterexample): the path-traversal guard is a plain string-prefix
check, not directory containment.  With output directory `/tmp/out`, the
reference `../out2/x.png` resolves to `/tmp/out2/x.png` — a path *outside*
the output directory — yet the inliner embeds it (the reference changes),
because `/tmp/out2/x.png` starts with the string `/tmp/out`. -/
theorem inliner_guard_counterexample :
    ¬ isUnder ("/tmp/out") (resolvePath ("/tmp/out") ("../out2/x.png")) ∧
    (inlineAssets ("/tmp/out") ("<img src=\"../out2/x.png\">")
        (fun p => if p = "/tmp/out2/x.png" then some [137, 80, 78] else none)).2
      = ["../out2/x.png"] ∧
    (inlineAssets ("/tmp/out") ("<img src=\"../out2/x.png\">")
        (fun p => if p = "/tmp/out2/x.png" then some [137, 80, 78] else none)).1
      ≠ "<img src=\"../out2/x.png\">" :=
  ⟨by decide, by decide, by decide⟩

/-- C4 (amended): the inliner resolves each local reference against the
(normalized) output directory and skips — never embeds — any reference
whose resolved path does not have the output directory as a *string
prefix*; this guard rejects upward traversals such as `../../etc/passwd`,
which is never embedded, but it is a prefix check rather than a
directory-containment check (see the counterexample: a sibling directory
like `/tmp/out2` passes it). -/
theorem inliner_guard_amended :
    (∀ (outDir html : String) (readAsset : String → Option Buffer) (src : String),
      strStartsWith (resolvePath (resolveOne outDir) src) (resolveOne outDir) = false →
      src ∉ (inlineAssets outDir html readAsset).2)
    ∧ (∀ readAsset : String → Option Buffer,
        inlineAssets ("/tmp/out") ("<img src=\"../../etc/passwd\">") readAsset
          = ("<img src=\"../../etc/passwd\">", [])) := by
  constructor
  · intro outDir html readAsset src hguard
    exact inlineLoop_guard_skip _ _ _ hguard _ _ _ _ (by simp)
  · intro readAsset
    rfl

/-- Witness for `inliner_guard_amended` at concrete inputs. -/
theorem inliner_guard_amended_witness :
    ("../../etc/passwd") ∉
      (inlineAssets ("/tmp/out") ("<img src=\"../../etc/passwd\">")
        (fun _ => some [1])).2 ∧
    inlineAssets ("/tmp/out") ("<img src=\"../../etc/passwd\">")
        (fun _ => some [1])
      = ("<img src=\"../../etc/passwd\">", []) :=
  ⟨inliner_guard_amended.1 ("/tmp/out") ("<img src=\"../../etc/passwd\">")
      (fun _ => some [1]) ("../../etc/passwd") (by decide),
   inliner_guard_amended.2 (fun _ => some [1])⟩

/-! ## Claim C5 -/

/-- C5: for every filter name and non-empty ordered option list, the
generated converter filter argument is exactly
`pdf:<filterName>:FilterData={'key':value,...}` — string values
single-quoted, booleans and numbers bare, keys in the order provided; and
for `{SinglePageSheets: true, ScaleToPagesX: 1}` with `calc_pdf_Export` it
is exactly `pdf:calc_pdf_Export:FilterData={'SinglePageSheets':true,'ScaleToPagesX':1}`. -/
theorem filter_serialization :
    (∀ (name : String) (opts : List (String × FilterValue)), opts ≠ [] →
      buildFilterArg name (some opts) =
        "pdf:" ++ name ++ ":FilterData=\x7b" ++
          strIntercalate (",")
            (opts.map (fun p =>
              match p.2 with
              | .s v => "\x27" ++ p.1 ++ "\x27:\x27" ++ v ++ "\x27"
              | .b true => "\x27" ++ p.1 ++ "\x27:true"
              | .b false => "\x27" ++ p.1 ++ "\x27:false"
              | .n i => "\x27" ++ p.1 ++ "\x27:" ++ intToString i)) ++ "\x7d")
    ∧ buildFilterArg ("calc_pdf_Export")
        (some [("SinglePageSheets", .b true), ("ScaleToPagesX", .n 1)]) =
      "pdf:calc_pdf_Export:FilterData=\x7b\x27SinglePageSheets\x27:true,\x27ScaleToPagesX\x27:1\x7d" := by
  constructor
  · intro name opts hne
    have hemp : opts.isEmpty = false := by
      cases opts with
      | nil => exact absurd rfl hne
      | cons a l => rfl
    have hfun : serializePair = (fun p : String × FilterValue =>
        match p.2 with
        | .s v => "\x27" ++ p.1 ++ "\x27:\x27" ++ v ++ "\x27"
        | .b true => "\x27" ++ p.1 ++ "\x27:true"
        | .b false => "\x27" ++ p.1 ++ "\x27:false"
        | .n i => "\x27" ++ p.1 ++ "\x27:" ++ intToString i) := by
      funext p
      rcases p with ⟨k, v⟩
      cases v with
      | s v => rfl
      | b bv => cases bv <;> rfl
      | n i => rfl
    simp only [buildFilterArg, hemp, Bool.false_eq_true, if_false, hfun]
  · decide

/-- Witness for `filter_serialization` at a concrete input. -/
theorem filter_serialization_witness :
    buildFilterArg ("writer_pdf_Export")
        (some [("UseLosslessCompression", FilterValue.b true)]) =
      "pdf:" ++ "writer_pdf_Export" ++ ":FilterData=\x7b" ++
        strIntercalate (",")
          ([(("UseLosslessCompression"), FilterValue.b true)].map
            (fun p : String × FilterValue =>
              match p.2 with
              | .s v => "\x27" ++ p.1 ++ "\x27:\x27" ++ v ++ "\x27"
              | .b true => "\x27" ++ p.1 ++ "\x27:true"
              | .b false => "\x27" ++ p.1 ++ "\x27:false"
              | .n i => "\x27" ++ p.1 ++ "\x27:" ++ intToString i)) ++ "\x7d" :=
  filter_serialization.1 ("writer_pdf_Export")
    [(("UseLosslessCompression"), FilterValue.b true)] (by decide)

/-! ## Claim C6 -/

/-- C6: each sheet's response key is its own name when non-blank, the
placeholder `Sheet N` (1-indexed) when blank; on a collision with a key
already used the suffix ` (2)`, ` (3)`, ... is appended until the key is
unique (every skipped suffix was indeed taken); and a workbook with two
sheets both named `Data` yields the keys `Data` and `Data (2)`. -/
theorem sheet_key_dedup :
    (∀ (i : Nat) (name : String), strTrim name = "" →
      displayNameOf i name = "Sheet " ++ natToString (i + 1))
    ∧ (∀ (i : Nat) (name : String), 0 < (strTrim name).length →
      displayNameOf i name = name)
    ∧ (∀ (used : List String) (dn : String), dn ∉ used →
      resultKeyFor used dn = dn)
    ∧ (∀ (used : List String) (dn : String), resultKeyFor used dn ∉ used)
    ∧ (∀ (used : List String) (dn : String), dn ∈ used →
      ∃ j, 2 ≤ j ∧
        resultKeyFor used dn = dn ++ " (" ++ natToString j ++ ")" ∧
        ∀ m, 2 ≤ m → m < j → (dn ++ " (" ++ natToString m ++ ")") ∈ used)
    ∧ (excelHandler (some ⟨"wb.xlsx", [1]⟩)
        ⟨"J", .ok (), .ok ⟨["Data", "Data"], fun _ => true⟩,
          fun i => .ok ("H" ++ natToString i), true⟩).1
      = .sheetsJson [("Data", "H0"), ("Data (2)", "H1")] := by
  refine ⟨?_, ?_, resultKeyFor_of_not_mem, resultKeyFor_not_mem, ?_, by decide⟩
  · intro i name h
    have hlen : ¬ (name ≠ "" ∧ 0 < (strTrim name).length) := by
      rw [h]
      simp
    simp [displayNameOf, hlen]
  · intro i name h
    have hne : name ≠ "" := by
      intro h0
      rw [h0] at h
      exact absurd h (by decide)
    simp [displayNameOf, hne, h]
  · intro used dn hmem
    rcases keyLoopC_shape used dn (used.length + 1) 0 with ⟨jj, _, hj⟩
    have hnotmem : cand dn jj ∉ used := by
      have := resultKeyFor_not_mem used dn
      rw [resultKeyFor, hj] at this
      exact this
    match jj, hj, hnotmem with
    | 0, hj, hnotmem => exact absurd hmem hnotmem
    | j0 + 1, hj, hnotmem =>
        refine ⟨j0 + 2, by omega, ?_, ?_⟩
        · rw [resultKeyFor, hj]; rfl
        · have hskip := keyLoopC_skipped_mem used dn (used.length + 1) 0 (j0 + 1)
            hj hnotmem
          intro m hm2 hmj
          have hcand := hskip (m - 1) (by omega) (by omega)
          have harg : m - 1 = (m - 2) + 1 := by omega
          rw [harg] at hcand
          simp only [cand] at hcand
          have harg2 : m - 2 + 2 = m := by omega
          rw [harg2] at hcand
          exact hcand

/-- Witness for `sheet_key_dedup` at concrete inputs. -/
theorem sheet_key_dedup_witness :
    displayNameOf 1 (" ") = "Sheet " ++ natToString 2 ∧
    resultKeyFor (["A"]) ("B") = "B" ∧
    (∃ j, 2 ≤ j ∧
      resultKeyFor (["Data"]) ("Data") = "Data" ++ " (" ++ natToString j ++ ")" ∧
      ∀ m, 2 ≤ m → m < j → ("Data" ++ " (" ++ natToString m ++ ")") ∈ (["Data"])) :=
  ⟨sheet_key_dedup.1 1 (" ") (by decide),
   sheet_key_dedup.2.2.1 (["A"]) ("B") (by decide),
   sheet_key_dedup.2.2.2.2.1 (["Data"]) ("Data") (by decide)⟩

/-! ## Concrete request data shared by the handler claims -/

/-- A concrete content-hash function standing in for SHA-256 (the claims
never depend on which function it is, only that it consumes the bytes). -/
def sumHash : Buffer → String :=
  fun b => "h" ++ natToString (b.foldl (fun a x => a + x) 0)

/-- A `/convert` oracle in which every effect succeeds. -/
def oracleAllOk : ConvertOracle :=
  ⟨"J", .ok (), .ok [1, 2], .ok (), .ok (),
   .ok ("/tmp/converter-service/J/doc.pdf"), .ok [9, 9], true⟩

/-! ## Claim C9 -/

/-- C9: a `/convert` request whose lowercased filename extension is outside
the allow-list is answered 400 with no effect attempted (empty trace: no
file write, no workspace creation, no subprocess) and the cache untouched;
the hash is only computed after this check in the handler. -/
theorem extension_allowlist_reject
    (hashFn : Buffer → String) (c : Cache) (now : Nat)
    (f : UploadedFile) (o : ConvertOracle)
    (hext : allowedExt (strLower (extname f.originalname)) = false) :
    convertHandler hashFn c now (some f) o =
      (.err 400 ("Unsupported file type. Please upload a document, spreadsheet, or presentation."),
       [], c) := by
  simp [convertHandler, hext]

/-- Witness for `extension_allowlist_reject` at a `.exe` upload. -/
theorem extension_allowlist_reject_witness :
    convertHandler sumHash [] 0 (some ⟨"virus.exe", [1]⟩) oracleAllOk =
      (.err 400 ("Unsupported file type. Please upload a document, spreadsheet, or presentation."),
       [], []) :=
  extension_allowlist_reject sumHash [] 0 ⟨"virus.exe", [1]⟩ oracleAllOk (by decide)

/-! ## Claim C8 -/

/-- C8: on a `/convert` request with a spreadsheet extension, a
normalization failure is caught locally: the handler behaves exactly as if
normalization had returned the original unmodified bytes — the error
message is never surfaced and the conversion is not aborted (the result
does not depend on the error `e` at all). -/
theorem normalize_error_fallback
    (hashFn : Buffer → String) (c : Cache) (now : Nat) (f : UploadedFile)
    (jobId e : String) (mk w s : Except String Unit)
    (rp : Except String String) (rd : Except String Buffer) (rm : Bool)
    (_hext : xlsxNormalizeExt (strLower (extname f.originalname)) = true) :
    convertHandler hashFn c now (some f) ⟨jobId, mk, .error e, w, s, rp, rd, rm⟩ =
      convertHandler hashFn c now (some f) ⟨jobId, mk, .ok f.buffer, w, s, rp, rd, rm⟩ :=
  rfl

/-- Witness for `normalize_error_fallback` at a concrete `.xlsx` request. -/
theorem normalize_error_fallback_witness :
    convertHandler sumHash [] 0 (some ⟨"sheet.xlsx", [5]⟩)
        ⟨"J", .ok (), .error ("normalization blew up"), .ok (), .ok (),
         .ok ("/tmp/converter-service/J/sheet.pdf"), .ok [9], true⟩ =
      convertHandler sumHash [] 0 (some ⟨"sheet.xlsx", [5]⟩)
        ⟨"J", .ok (), .ok [5], .ok (), .ok (),
         .ok ("/tmp/converter-service/J/sheet.pdf"), .ok [9], true⟩ :=
  normalize_error_fallback sumHash [] 0 ⟨"sheet.xlsx", [5]⟩ ("J")
    ("normalization blew up") (.ok ()) (.ok ()) (.ok ())
    (.ok ("/tmp/converter-service/J/sheet.pdf")) (.ok [9]) true (by decide)

/-! ## Claim C1 -/

/-- C1 (counterexample): on a zero-sheet workbook `/convert-excel` does
answer 400 with no subprocess invoked, but the workspace directory *is*
created first: the handler performs `ensureTmpDir(tmpDir)` before parsing
the workbook and checking the sheet count, so the trace of the request
contains the workspace-creation effect (followed by the cleanup removal). -/
theorem excel_zero_sheets_counterexample :
    excelHandler (some ⟨"wb.xlsx", [1]⟩)
        ⟨"J", .ok (), .ok ⟨[], fun _ => false⟩, fun _ => .error ("boom"), true⟩
      = (.err 400 ("Workbook does not contain any sheets."),
         [.mkdirEv ("/tmp/converter-service/excel/J"),
          .rmEv ("/tmp/converter-service/excel/J")]) ∧
    Event.mkdirEv ("/tmp/converter-service/excel/J") ∈
      (excelHandler (some ⟨"wb.xlsx", [1]⟩)
        ⟨"J", .ok (), .ok ⟨[], fun _ => false⟩, fun _ => .error ("boom"), true⟩).2 :=
  ⟨by decide, by decide⟩

/-- C1 (amended): for every `/convert-excel` request whose workbook parses
to zero sheets (with the workspace creation succeeding), the handler
responds 400 before invoking any subprocess — but only after creating the
per-request workspace directory, which the `finally` step then removes. -/
theorem excel_zero_sheets_amended
    (file : Option UploadedFile) (f : UploadedFile) (o : ExcelOracle)
    (wb : Workbook)
    (hfile : file = some f)
    (hext : xlsxNormalizeExt (strLower (extname f.originalname)) = true)
    (hmk : o.mkdir = .ok ())
    (hparse : o.parse = .ok wb)
    (hsheets : wb.sheetNames = []) :
    excelHandler file o =
      (.err 400 ("Workbook does not contain any sheets."),
       [.mkdirEv ("/tmp/converter-service/excel/" ++ o.jobId),
        .rmEv ("/tmp/converter-service/excel/" ++ o.jobId)]) := by
  subst hfile
  simp [excelHandler, excelTryBody, hext, hmk, hparse, hsheets]

/-- Witness for `excel_zero_sheets_amended` at a concrete request. -/
theorem excel_zero_sheets_amended_witness :
    excelHandler (some ⟨"wb.xlsx", [1]⟩)
        ⟨"J", .ok (), .ok ⟨[], fun _ => true⟩, fun _ => .error ("x"), false⟩
      = (.err 400 ("Workbook does not contain any sheets."),
         [.mkdirEv ("/tmp/converter-service/excel/J"),
          .rmEv ("/tmp/converter-service/excel/J")]) :=
  excel_zero_sheets_amended _ _ _ ⟨[], fun _ => true⟩ rfl (by decide) rfl rfl rfl

/-! ## Claim C3 -/

/-- C3: on both `/convert` and `/convert-excel`, (i) the outcome of the
final workspace removal is swallowed — the whole handler result is
independent of whether the removal succeeds (`rmOk`); and (ii) on every
path that reaches the `try`/`finally` (success, validation failure after
workspace creation, conversion failure, output-not-found, any other
exception), the recursive removal of the per-request workspace directory is
the last effect attempted. -/
theorem workspace_cleanup :
    (∀ (hashFn : Buffer → String) (c : Cache) (now : Nat)
        (file : Option UploadedFile) (jobId : String) (mk : Except String Unit)
        (nz : Except String Buffer) (w s : Except String Unit)
        (rp : Except String String) (rd : Except String Buffer),
      convertHandler hashFn c now file ⟨jobId, mk, nz, w, s, rp, rd, true⟩ =
        convertHandler hashFn c now file ⟨jobId, mk, nz, w, s, rp, rd, false⟩)
    ∧ (∀ (file : Option UploadedFile) (jobId : String) (mk : Except String Unit)
        (pr : Except String Workbook) (sr : Nat → Except String String),
      excelHandler file ⟨jobId, mk, pr, sr, true⟩ =
        excelHandler file ⟨jobId, mk, pr, sr, false⟩)
    ∧ (∀ (hashFn : Buffer → String) (c : Cache) (now : Nat)
        (file : Option UploadedFile) (o : ConvertOracle),
      convertEntersTry hashFn c file →
      (convertHandler hashFn c now file o).2.1.getLast? =
        some (.rmEv ("/tmp/converter-service/" ++ o.jobId)))
    ∧ (∀ (file : Option UploadedFile) (o : ExcelOracle),
      excelEntersTry file →
      (excelHandler file o).2.getLast? =
        some (.rmEv ("/tmp/converter-service/excel/" ++ o.jobId))) := by
  refine ⟨?_, ?_, ?_, ?_⟩
  · intro hashFn c now file jobId mk nz w s rp rd
    rfl
  · intro file jobId mk pr sr
    rfl
  · intro hashFn c now file o h
    rcases h with ⟨f, hfile, hext, hmiss⟩
    subst hfile
    simp only [convertHandler, hext, if_true, hmiss]
    exact List.getLast?_concat _
  · intro file o h
    rcases h with ⟨f, hfile, hext⟩
    subst hfile
    simp only [excelHandler, hext, if_true]
    exact List.getLast?_concat _

/-- Witness for `workspace_cleanup` at concrete requests. -/
theorem workspace_cleanup_witness :
    (convertHandler sumHash [] 0 (some ⟨"doc.docx", [1, 2, 3]⟩)
        ⟨"J", .ok (), .ok [1], .error ("disk full"), .ok (),
         .ok ("p"), .ok [2], true⟩ =
      convertHandler sumHash [] 0 (some ⟨"doc.docx", [1, 2, 3]⟩)
        ⟨"J", .ok (), .ok [1], .error ("disk full"), .ok (),
         .ok ("p"), .ok [2], false⟩) ∧
    (convertHandler sumHash [] 7 (some ⟨"doc.docx", [1, 2, 3]⟩) oracleAllOk).2.1.getLast? =
      some (.rmEv ("/tmp/converter-service/" ++ oracleAllOk.jobId)) ∧
    (excelHandler (some ⟨"wb.xlsx", [1]⟩)
        ⟨"J", .ok (), .error ("parse failed"), fun _ => .error ("x"), true⟩).2.getLast? =
      some (.rmEv ("/tmp/converter-service/excel/" ++ "J")) :=
  ⟨workspace_cleanup.1 sumHash [] 0 (some ⟨"doc.docx", [1, 2, 3]⟩) ("J")
      (.ok ()) (.ok [1]) (.error ("disk full")) (.ok ())
      (.ok ("p")) (.ok [2]),
   workspace_cleanup.2.2.1 sumHash [] 7 (some ⟨"doc.docx", [1, 2, 3]⟩) oracleAllOk
      ⟨⟨"doc.docx", [1, 2, 3]⟩, rfl, by decide, rfl⟩,
   workspace_cleanup.2.2.2 (some ⟨"wb.xlsx", [1]⟩)
      ⟨"J", .ok (), .error ("parse failed"), fun _ => .error ("x"), true⟩
      ⟨⟨"wb.xlsx", [1]⟩, rfl, by decide⟩⟩

/-! ## Claim C7 -/

/-- Whenever `/convert` answers with a PDF body `B`, the resulting cache
holds an entry for the hash of the uploaded bytes whose stored buffer is
exactly `B` (both on a cache hit and on a fresh conversion). -/
theorem convertHandler_pdf_cached
    (hashFn : Buffer → String) (c : Cache) (now : Nat) (f : UploadedFile)
    (o : ConvertOracle) (nm : String) (B : Buffer) (tr : List Event) (c' : Cache)
    (h : convertHandler hashFn c now (some f) o = (.pdf nm B, tr, c')) :
    ∃ e, cacheGet c' (hashFn f.buffer) = some e ∧ e.buffer = B := by
  by_cases hext : allowedExt (strLower (extname f.originalname)) = true
  · rw [convertHandler] at h
    simp only [hext, if_true] at h
    cases hget : cacheGet c (hashFn f.buffer) with
    | some cached =>
        rw [hget] at h
        simp only [Prod.mk.injEq, Response.pdf.injEq] at h
        refine ⟨cached, ?_, h.1.2⟩
        rw [← h.2.2]
        exact hget
    | none =>
        rw [hget] at h
        rcases o with ⟨jobId, mk, nz, w, s, rp, rd, rm⟩
        cases mk with
        | error em => simp [convertMissPath] at h
        | ok u =>
          cases w with
          | error ew => simp [convertMissPath] at h
          | ok uw =>
            cases s with
            | error es => simp [convertMissPath] at h
            | ok us =>
              cases rp with
              | error erp => simp [convertMissPath] at h
              | ok pdfPath =>
                cases rd with
                | error erd => simp [convertMissPath] at h
                | ok pdfBuffer =>
                    simp only [convertMissPath, Prod.mk.injEq,
                      Response.pdf.injEq] at h
                    refine ⟨⟨B, now⟩, ?_, rfl⟩
                    rw [← h.2.2, ← h.1.2]
                    exact cacheGet_remember_self _ _ _ _
  · simp [convertHandler, hext] at h

/-- C7: the content hash consumed by `/convert` is a function of the raw
bytes only, so after any request answered with a PDF body `B`, a second
request with byte-identical content (any filename with an allowed
extension) hits the cache: it returns the same body `B`, attempts no
effect at all (no subprocess, no workspace), and leaves the cache
unchanged. -/
theorem convert_cache_idempotent
    (hashFn : Buffer → String) (c : Cache) (now1 now2 : Nat)
    (f1 f2 : UploadedFile) (o1 o2 : ConvertOracle)
    (nm : String) (B : Buffer) (tr1 : List Event) (c1 : Cache)
    (h1 : convertHandler hashFn c now1 (some f1) o1 = (.pdf nm B, tr1, c1))
    (hbuf : f2.buffer = f1.buffer)
    (hext : allowedExt (strLower (extname f2.originalname)) = true) :
    convertHandler hashFn c1 now2 (some f2) o2 =
      (.pdf (parseName f2.originalname ++ ".pdf") B, [], c1) := by
  rcases convertHandler_pdf_cached hashFn c now1 f1 o1 nm B tr1 c1 h1 with
    ⟨e, hget, hbufe⟩
  have hget2 : cacheGet c1 (hashFn f2.buffer) = some e := by
    rw [hbuf]; exact hget
  simp [convertHandler, hext, hget2, hbufe]

/-- Witness for `convert_cache_idempotent`: a successful first conversion
of `doc.docx`, then byte-identical content uploaded as `other.docx`. -/
theorem convert_cache_idempotent_witness :
    convertHandler sumHash [(("h6"), ⟨[9, 9], 7⟩)] 8 (some ⟨"other.docx", [1, 2, 3]⟩)
        oracleAllOk =
      (.pdf (parseName ("other.docx") ++ ".pdf") [9, 9], [],
       [(("h6"), ⟨[9, 9], 7⟩)]) :=
  convert_cache_idempotent sumHash [] 7 8 ⟨"doc.docx", [1, 2, 3]⟩
    ⟨"other.docx", [1, 2, 3]⟩ oracleAllOk oracleAllOk ("doc.pdf") [9, 9]
    [.mkdirEv ("/tmp/converter-service/J"),
     .writeEv ("/tmp/converter-service/J/doc.docx") [1, 2, 3],
     .sofficeEv ("/tmp/converter-service/J/doc.docx") ("/tmp/converter-service/J")
       (sofficeFilterArg ("/tmp/converter-service/J/doc.docx")),
     .rmEv ("/tmp/converter-service/J")]
    [(("h6"), ⟨[9, 9], 7⟩)] (by decide) rfl (by decide)

end Conv
